import Mathlib

/-!
Shallow embedding of the vote-tallying core of `source.py` (class `VotingSystem`).

The Python dict `self.votes` is modelled as an insertion-ordered association
list (`VoteDict`), matching CPython dict semantics: lookup returns the value at
the (unique) key, assignment updates an existing key in place or appends a new
entry at the end, `setdefault` appends a zero entry only when absent.
GUI rendering, real timestamps and the concrete JSON encoding are out of scope;
persistence and the audit log are modelled as the sequences of ballots written
and messages appended (`SysState`).  The SHA-256 function from `hashlib` is
external library code and is abstracted as a function parameter `hash`.
-/

namespace Voting

/-- Insertion-ordered mapping from candidate name to vote count (Python dict). -/
abbrev VoteDict := List (String × Nat)

/-- Model of `d.get(k, 0)`: value at the first entry for `k`, or 0 if absent. -/
def dictGet (d : VoteDict) (k : String) : Nat :=
  match d with
  | [] => 0
  | p :: rest => if p.1 = k then p.2 else dictGet rest k

/-- Model of `d[k] = v`: update the entry for `k` in place, or append it. -/
def dictSet (d : VoteDict) (k : String) (v : Nat) : VoteDict :=
  match d with
  | [] => [(k, v)]
  | p :: rest => if p.1 = k then (k, v) :: rest else p :: dictSet rest k v

/-- The key list of a vote dict, in insertion order. -/
def keys (d : VoteDict) : List String :=
  d.map Prod.fst

/-- Model of `d.setdefault(k, 0)`: append a zero entry only when `k` is absent. -/
def dictSetdefault (d : VoteDict) (k : String) : VoteDict :=
  if k ∈ keys d then d else d ++ [(k, 0)]

/-- Model of Python `sum(d.values())`. -/
def sumVotes (d : VoteDict) : Nat :=
  (d.map Prod.snd).sum

/-- The mutable ballot fields of `VotingSystem` (`voting_open`, `votes`,
`candidates`, `total_votes`). -/
structure BallotState where
  voting_open : Bool
  votes : VoteDict
  candidates : List String
  total_votes : Nat
  deriving Repr, DecidableEq

/-- The two rejection paths of `cast_vote`: the voting-closed error box and the
no-selection warning box. -/
inductive VoteError where
  | votingClosed
  | noSelection
  deriving Repr, DecidableEq

/-- Rejection paths of `save_candidates` in `manage_candidates`. -/
inductive CandError where
  | limitExceeded
  | duplicateNames
  deriving Repr, DecidableEq

/-- Rejection paths of `do_change` in `change_password`. -/
inductive PwError where
  | authError
  | validationError
  deriving Repr, DecidableEq

/-- Outcome of a fallible operation on the in-place mutated Python object: on
error the method returned early, so the state is the one passed in. -/
def commit {ε α : Type} (a : α) : Except ε α → α
  | .ok b => b
  | .error _ => a

/-- `cast_vote` (source lines 356-373): rejects when voting is closed, then
when the selection is empty; otherwise `votes[selected] = votes.get(selected, 0) + 1`
and `total_votes += 1`.  Note the source performs no membership check of
`selected` against `candidates`. -/
def cast_vote (s : BallotState) (selected : String) : Except VoteError BallotState :=
  if s.voting_open = false then .error .votingClosed
  else if selected = "" then .error .noSelection
  else .ok { s with
      votes := dictSet s.votes selected (dictGet s.votes selected + 1),
      total_votes := s.total_votes + 1 }

/-- The `for candidate in self.candidates: self.votes[candidate] = 0` loop of
`reset_votes_logic`, started from a given dict. -/
def zeroAll (cands : List String) (d : VoteDict) : VoteDict :=
  cands.foldl (fun acc c => dictSet acc c 0) d

/-- `reset_votes_logic` (source lines 513-518): clear the dict, write a zero
entry per candidate, zero the total. -/
def reset_votes_logic (s : BallotState) : BallotState :=
  { s with votes := zeroAll s.candidates [], total_votes := 0 }

/-- Whitespace stripping on the character list: drop leading and trailing
whitespace. -/
def stripChars (l : List Char) : List Char :=
  ((l.dropWhile Char.isWhitespace).reverse.dropWhile Char.isWhitespace).reverse

/-- Model of Python `str.strip()` with no argument: remove leading and trailing
whitespace. -/
def pyStrip (s : String) : String :=
  ⟨stripChars s.data⟩

/-- `save_candidates` (source lines 567-582): strip every entry field, drop the
ones empty after stripping, reject more than 32 names, reject duplicates
(`len(new_candidates) != len(set(new_candidates))`; only the count of distinct
names matters), else install the new roster and reset all votes. -/
def save_candidates (s : BallotState) (entries : List String) : Except CandError BallotState :=
  let new_candidates := (entries.map pyStrip).filter (fun e => e != "")
  if new_candidates.length > 32 then .error .limitExceeded
  else if new_candidates.dedup.length ≠ new_candidates.length then .error .duplicateNames
  else .ok (reset_votes_logic { s with candidates := new_candidates })

/-- System state: the ballot plus the audit-log messages appended so far and
the sequence of ballot snapshots written by `save_data`. -/
structure SysState where
  ballot : BallotState
  log : List String
  saves : List BallotState
  deriving Repr, DecidableEq

/-- `log_event`: appends a timestamped message line; the real-time timestamp is
elided, the message is kept. -/
def log_event (st : SysState) (msg : String) : SysState :=
  { st with log := st.log ++ [msg] }

/-- `save_data`: persists the current ballot snapshot. -/
def save_data (st : SysState) : SysState :=
  { st with saves := st.saves ++ [st.ballot] }

/-- `open_voting` (source lines 375-383): only when currently closed, set the
flag, log, save. -/
def open_voting (st : SysState) : SysState :=
  if st.ballot.voting_open = false then
    save_data (log_event { st with ballot := { st.ballot with voting_open := true } }
      "Voting Opened Manually")
  else st

/-- `close_voting` (source lines 385-393): only when currently open, clear the
flag, log, save. -/
def close_voting (st : SysState) : SysState :=
  if st.ballot.voting_open = true then
    save_data (log_event { st with ballot := { st.ballot with voting_open := false } }
      "Voting Closed Manually")
  else st

/-- `toggle_master_voting` (source lines 395-406): unconditional flip, log an
override message, save. -/
def toggle_master_voting (st : SysState) : SysState :=
  let st1 : SysState := { st with ballot := { st.ballot with voting_open := !st.ballot.voting_open } }
  save_data (if st1.ballot.voting_open then log_event st1 "Voting Opened Manually (Override)"
    else log_event st1 "Voting Closed Manually (Override)")

/-- The observable condition of the data file when `load_data` runs: absent,
raising `JSONDecodeError`/`IOError`, or parsed as a JSON object whose four
fields are each present or missing. -/
inductive FileState where
  | missing
  | unreadable
  | parsed (candidates : Option (List String)) (votes : Option VoteDict)
      (total_votes : Option Nat) (voting_open : Option Bool)
  deriving Repr, DecidableEq

/-- The default roster from `__init__`: `f"Candidate {i+1}"` for `i in range(10)`. -/
def defaultCandidates : List String :=
  (List.range 10).map (fun i => "Candidate " ++ toString (i + 1))

/-- The in-memory state set up by `__init__` before `load_data` runs: voting
closed, empty votes dict, default roster, zero total. -/
def initState : BallotState :=
  { voting_open := false, votes := [], candidates := defaultCandidates, total_votes := 0 }

/-- The `for candidate in self.candidates: self.votes.setdefault(candidate, 0)`
backfill loop of `load_data`. -/
def backfill (cands : List String) (d : VoteDict) : VoteDict :=
  cands.foldl dictSetdefault d

/-- `load_data` (source lines 103-121): missing file leaves the in-memory state
untouched; a parse or I/O failure shows a warning and calls
`reset_votes_logic`; a parsed object supplies each field with its default
(`candidates` defaulting to the in-memory roster, `votes` to `{}`,
`total_votes` to 0, `voting_open` to false) and then backfills. -/
def load_data (init : BallotState) : FileState → BallotState
  | .missing => init
  | .unreadable => reset_votes_logic init
  | .parsed c v t o =>
      let cands := c.getD init.candidates
      { voting_open := o.getD false,
        votes := backfill cands (v.getD []),
        candidates := cands,
        total_votes := t.getD 0 }

/-- Stable insertion of one `(name, count)` pair into a list sorted by count
descending: the new pair goes after every pair with a count ≥ its own. -/
def insertDesc (p : String × Nat) : List (String × Nat) → List (String × Nat)
  | [] => [p]
  | q :: rest => if p.2 ≤ q.2 then q :: insertDesc p rest else p :: q :: rest

/-- Model of `sorted(self.votes.items(), key=lambda item: item[1], reverse=True)`:
a stable sort by count descending (CPython's sort is stable, and `reverse=True`
keeps ties in input order). -/
def sortedVotesDesc (l : VoteDict) : VoteDict :=
  l.foldl (fun acc p => insertDesc p acc) []

/-- The percentage expression of `display_results` line 505, with Python float
arithmetic idealised as exact rationals:
`(vote_count / self.total_votes * 100) if self.total_votes > 0 else 0`. -/
def rawPercentage (total v : Nat) : ℚ :=
  if 0 < total then (v : ℚ) / (total : ℚ) * 100 else 0

/-- The one-decimal rounding performed by the `f"{percentage:.1f}%"` display. -/
def roundTenths (q : ℚ) : ℚ :=
  ((round (q * 10) : ℤ) : ℚ) / 10

/-- The result rows produced by `display_results` (source lines 487-511): the
vote entries sorted by count descending, each with its displayed percentage. -/
def compute_results (s : BallotState) : List (String × Nat × ℚ) :=
  (sortedVotesDesc s.votes).map
    (fun p => (p.1, p.2, roundTenths (rawPercentage s.total_votes p.2)))

/-- `verify_password` (source lines 99-101): the hash of the input compared to
the stored hash (`None` before setup compares unequal to any string). -/
def verify_password (hash : String → String) (stored : Option String) (p : String) : Bool :=
  match stored with
  | some h => hash p == h
  | none => false

/-- `do_change` in `change_password` (source lines 612-623): reject when the
current password does not verify, then when the new password is empty or does
not equal the confirmation; otherwise store the hash of the new password. -/
def do_change (hash : String → String) (stored : Option String)
    (current new confirm : String) : Except PwError (Option String) :=
  if verify_password hash stored current = false then .error .authError
  else if new = "" ∨ new ≠ confirm then .error .validationError
  else .ok (some (hash new))

/-- A fold of `cast_vote` over a list of selections, counting accepted calls. -/
def castAll (s : BallotState) (sels : List String) : BallotState × Nat :=
  sels.foldl (fun acc sel =>
    match cast_vote acc.1 sel with
    | .ok s' => (s', acc.2 + 1)
    | .error _ => acc) (s, 0)

/-- The dict part of the BallotState invariant: the key set of the vote dict
coincides with the candidate roster. -/
def keysMatch (s : BallotState) : Prop :=
  ∀ c : String, c ∈ keys s.votes ↔ c ∈ s.candidates

/-- The BallotState invariant from the spec data model. -/
def Inv (s : BallotState) : Prop :=
  s.total_votes = sumVotes s.votes ∧ keysMatch s

theorem sumVotes_nil : sumVotes [] = 0 := rfl

theorem sumVotes_cons (p : String × Nat) (d : VoteDict) :
    sumVotes (p :: d) = p.2 + sumVotes d := rfl

theorem sumVotes_dictSet_incr (d : VoteDict) (k : String) :
    sumVotes (dictSet d k (dictGet d k + 1)) = sumVotes d + 1 := by
  induction d with
  | nil => simp [dictSet, dictGet, sumVotes]
  | cons p rest ih =>
      by_cases h : p.1 = k
      · simp [dictSet, dictGet, h, sumVotes_cons]
        omega
      · simp [dictSet, dictGet, h, sumVotes_cons, ih]
        omega

theorem mem_keys_dictSet (d : VoteDict) (k : String) (v : Nat) (c : String) :
    c ∈ keys (dictSet d k v) ↔ c ∈ keys d ∨ c = k := by
  induction d with
  | nil => simp [dictSet, keys]
  | cons p rest ih =>
      by_cases h : p.1 = k
      · subst h
        simp [dictSet, keys]
        tauto
      · simp [dictSet, h, keys] at ih ⊢
        tauto

theorem mem_dictSet (d : VoteDict) (k : String) (v : Nat) (p : String × Nat) :
    p ∈ dictSet d k v → p = (k, v) ∨ p ∈ d := by
  induction d with
  | nil => simp [dictSet]
  | cons q rest ih =>
      by_cases h : q.1 = k
      · simp [dictSet, h]
        tauto
      · simp [dictSet, h]
        intro hmem
        rcases hmem with h1 | h2
        · tauto
        · rcases ih h2 with h3 | h4 <;> tauto

theorem mem_keys_zeroAll (cands : List String) (d : VoteDict) (c : String) :
    c ∈ keys (zeroAll cands d) ↔ c ∈ keys d ∨ c ∈ cands := by
  induction cands generalizing d with
  | nil => simp [zeroAll]
  | cons a as ih =>
      show c ∈ keys (zeroAll as (dictSet d a 0)) ↔ _
      rw [ih]
      rw [mem_keys_dictSet]
      simp
      tauto

theorem zeroAll_vals (cands : List String) (d : VoteDict)
    (h : ∀ p ∈ d, p.2 = 0) : ∀ p ∈ zeroAll cands d, p.2 = 0 := by
  induction cands generalizing d with
  | nil => simpa [zeroAll] using h
  | cons a as ih =>
      intro p hp
      refine ih (dictSet d a 0) ?_ p hp
      intro q hq
      rcases mem_dictSet d a 0 q hq with h1 | h2
      · simp [h1]
      · exact h q h2

theorem sumVotes_eq_zero (d : VoteDict) (h : ∀ p ∈ d, p.2 = 0) : sumVotes d = 0 := by
  induction d with
  | nil => rfl
  | cons p rest ih =>
      rw [sumVotes_cons, h p (by simp), ih (fun q hq => h q (by simp [hq]))]

theorem dictGet_eq_zero (d : VoteDict) (c : String) (h : ∀ p ∈ d, p.2 = 0) :
    dictGet d c = 0 := by
  induction d with
  | nil => rfl
  | cons p rest ih =>
      by_cases hc : p.1 = c
      · simpa [dictGet, hc] using h p (by simp)
      · exact (by simpa [dictGet, hc] using ih (fun q hq => h q (by simp [hq])))

theorem dictSet_of_notMem (d : VoteDict) (k : String) (v : Nat) (h : k ∉ keys d) :
    dictSet d k v = d ++ [(k, v)] := by
  induction d with
  | nil => rfl
  | cons p rest ih =>
      simp [keys] at h
      push_neg at h
      simp [dictSet, Ne.symm h.1, ih (by simp [keys]; exact h.2)]

theorem zeroAll_append (cands : List String) (d : VoteDict)
    (hnd : cands.Nodup) (hfresh : ∀ c ∈ cands, c ∉ keys d) :
    zeroAll cands d = d ++ cands.map (fun c => (c, 0)) := by
  induction cands generalizing d with
  | nil => simp [zeroAll]
  | cons a as ih =>
      show zeroAll as (dictSet d a 0) = _
      rw [dictSet_of_notMem d a 0 (hfresh a (by simp))]
      rw [ih (d ++ [(a, 0)]) (List.Nodup.of_cons hnd) ?_]
      · simp
      · intro c hc
        simp [keys]
        constructor
        · have := hfresh c (by simp [hc])
          simpa [keys] using this
        · rintro rfl
          exact (List.nodup_cons.mp hnd).1 hc

theorem zeroAll_eq_map (cands : List String) (h : cands.Nodup) :
    zeroAll cands [] = cands.map (fun c => (c, 0)) := by
  simpa using zeroAll_append cands [] h (by simp [keys])

theorem inv_reset (s : BallotState) : Inv (reset_votes_logic s) := by
  constructor
  · exact (sumVotes_eq_zero _ (zeroAll_vals s.candidates [] (by simp))).symm
  · intro c
    show c ∈ keys (zeroAll s.candidates []) ↔ _
    rw [mem_keys_zeroAll]
    simp [keys, reset_votes_logic]

theorem mem_keys_setdefault (d : VoteDict) (k c : String) :
    c ∈ keys (dictSetdefault d k) ↔ c ∈ keys d ∨ c = k := by
  by_cases h : k ∈ keys d
  · rw [dictSetdefault, if_pos h]
    constructor
    · tauto
    · rintro (hc | rfl)
      · exact hc
      · exact h
  · rw [dictSetdefault, if_neg h]
    simp [keys]

theorem mem_keys_backfill (cands : List String) (d : VoteDict) (c : String) :
    c ∈ keys (backfill cands d) ↔ c ∈ keys d ∨ c ∈ cands := by
  induction cands generalizing d with
  | nil => simp [backfill]
  | cons a as ih =>
      show c ∈ keys (backfill as (dictSetdefault d a)) ↔ _
      rw [ih, mem_keys_setdefault]
      simp
      tauto

theorem cast_vote_ok_iff (s : BallotState) (sel : String) (s' : BallotState) :
    cast_vote s sel = .ok s' ↔
      s.voting_open = true ∧ sel ≠ "" ∧
        s' = { s with votes := dictSet s.votes sel (dictGet s.votes sel + 1),
                      total_votes := s.total_votes + 1 } := by
  rw [cast_vote]
  split_ifs with h1 h2
  · simp [h1]
  · simp [h2]
  · constructor
    · intro h
      refine ⟨by simpa using h1, h2, ?_⟩
      exact (Except.ok.injEq _ _).mp h |>.symm
    · rintro ⟨-, -, rfl⟩
      rfl

theorem cast_vote_voting_open (s : BallotState) (sel : String) (s' : BallotState)
    (h : cast_vote s sel = .ok s') : s'.voting_open = s.voting_open := by
  rcases (cast_vote_ok_iff s sel s').mp h with ⟨h1, -, rfl⟩
  simp [h1]

theorem dedup_length_eq_iff (l : List String) : l.dedup.length = l.length ↔ l.Nodup := by
  constructor
  · intro h
    have := List.Sublist.eq_of_length (List.dedup_sublist l) h
    rw [← this]
    exact List.nodup_dedup l
  · intro h
    rw [List.dedup_eq_self.mpr h]

theorem save_candidates_ok_iff (s : BallotState) (entries : List String) (s' : BallotState) :
    save_candidates s entries = .ok s' ↔
      ((entries.map pyStrip).filter (fun e => e != "")).length ≤ 32 ∧
      ((entries.map pyStrip).filter (fun e => e != "")).Nodup ∧
      s' = reset_votes_logic
        { s with candidates := (entries.map pyStrip).filter (fun e => e != "") } := by
  rw [save_candidates]
  split_ifs with h1 h2
  · constructor
    · intro h
      exact h.elim
    · rintro ⟨hle, -, -⟩
      omega
  · constructor
    · intro h
      exact h.elim
    · rintro ⟨-, hnd, -⟩
      exact absurd ((dedup_length_eq_iff _).mpr hnd) h2
  · rw [not_lt] at h1
    rw [not_ne_iff] at h2
    constructor
    · intro h
      exact ⟨h1, (dedup_length_eq_iff _).mp h2, ((Except.ok.injEq _ _).mp h).symm⟩
    · rintro ⟨-, -, rfl⟩
      rfl

theorem insertDesc_perm (p : String × Nat) (l : List (String × Nat)) :
    (insertDesc p l).Perm (p :: l) := by
  induction l with
  | nil => simp [insertDesc]
  | cons q rest ih =>
      rw [insertDesc]
      split_ifs with h
      · exact (ih.cons q).trans (List.Perm.swap p q rest)
      · exact List.Perm.refl _

theorem mem_insertDesc (p x : String × Nat) (l : List (String × Nat)) :
    x ∈ insertDesc p l ↔ x = p ∨ x ∈ l := by
  rw [(insertDesc_perm p l).mem_iff]
  simp

theorem insertDesc_pairwise (p : String × Nat) (l : List (String × Nat))
    (h : l.Pairwise (fun a b => b.2 ≤ a.2)) :
    (insertDesc p l).Pairwise (fun a b => b.2 ≤ a.2) := by
  induction l with
  | nil => simp [insertDesc]
  | cons q rest ih =>
      rw [List.pairwise_cons] at h
      rw [insertDesc]
      split_ifs with hle
      · rw [List.pairwise_cons]
        refine ⟨?_, ih h.2⟩
        intro x hx
        rcases (mem_insertDesc p x rest).mp hx with rfl | hxr
        · exact hle
        · exact h.1 x hxr
      · rw [List.pairwise_cons]
        refine ⟨?_, List.pairwise_cons.mpr h⟩
        intro x hx
        rcases List.mem_cons.mp hx with rfl | hxr
        · omega
        · have := h.1 x hxr
          omega

theorem filter_insertDesc_of_ne (k : Nat) (p : String × Nat) (l : List (String × Nat))
    (hp : p.2 ≠ k) :
    (insertDesc p l).filter (fun q => q.2 == k) = l.filter (fun q => q.2 == k) := by
  induction l with
  | nil => simp [insertDesc, hp]
  | cons q rest ih =>
      rw [insertDesc]
      split_ifs with hle
      · rw [List.filter_cons, List.filter_cons, ih]
      · rw [List.filter_cons, List.filter]
        simp [hp]

theorem filter_insertDesc_of_eq (k : Nat) (p : String × Nat) (l : List (String × Nat))
    (hp : p.2 = k) (h : l.Pairwise (fun a b => b.2 ≤ a.2)) :
    (insertDesc p l).filter (fun q => q.2 == k)
      = l.filter (fun q => q.2 == k) ++ [p] := by
  induction l with
  | nil => simp [insertDesc, hp]
  | cons q rest ih =>
      rw [List.pairwise_cons] at h
      rw [insertDesc]
      split_ifs with hle
      · rw [List.filter_cons, List.filter_cons, ih h.2]
        by_cases hq : q.2 = k <;> simp [hq]
      · have hql : q.2 < p.2 := by omega
        have hrest : ∀ x ∈ q :: rest, ¬ ((fun r => r.2 == k) x = true) := by
          intro x hx
          rcases hx with _ | hxr
          · simp
            omega
          · have := h.1 x (by assumption)
            simp
            omega
        have hnil : (q :: rest).filter (fun r => r.2 == k) = [] :=
          List.filter_eq_nil_iff.mpr hrest
        rw [List.filter_cons, hnil]
        simp [hp]

theorem sortAux_pairwise (l acc : List (String × Nat))
    (h : acc.Pairwise (fun a b => b.2 ≤ a.2)) :
    (l.foldl (fun a p => insertDesc p a) acc).Pairwise (fun a b => b.2 ≤ a.2) := by
  induction l generalizing acc with
  | nil => simpa using h
  | cons p rest ih =>
      exact ih (insertDesc p acc) (insertDesc_pairwise p acc h)

theorem sortAux_perm (l acc : List (String × Nat)) :
    (l.foldl (fun a p => insertDesc p a) acc).Perm (acc ++ l) := by
  induction l generalizing acc with
  | nil => simp
  | cons p rest ih =>
      refine (ih (insertDesc p acc)).trans ?_
      have h1 : (insertDesc p acc ++ rest).Perm ((p :: acc) ++ rest) :=
        (insertDesc_perm p acc).append_right rest
      refine h1.trans ?_
      simpa using List.perm_middle.symm

theorem sortAux_filter (l acc : List (String × Nat)) (k : Nat)
    (h : acc.Pairwise (fun a b => b.2 ≤ a.2)) :
    (l.foldl (fun a p => insertDesc p a) acc).filter (fun q => q.2 == k)
      = acc.filter (fun q => q.2 == k) ++ l.filter (fun q => q.2 == k) := by
  induction l generalizing acc with
  | nil => simp
  | cons p rest ih =>
      show ((rest.foldl (fun a p => insertDesc p a) (insertDesc p acc)).filter _) = _
      rw [ih (insertDesc p acc) (insertDesc_pairwise p acc h)]
      by_cases hp : p.2 = k
      · rw [filter_insertDesc_of_eq k p acc hp h]
        simp [hp]
      · rw [filter_insertDesc_of_ne k p acc hp]
        simp [hp]

theorem sortedVotesDesc_pairwise (l : VoteDict) :
    (sortedVotesDesc l).Pairwise (fun a b => b.2 ≤ a.2) :=
  sortAux_pairwise l [] (by simp)

theorem sortedVotesDesc_perm (l : VoteDict) : (sortedVotesDesc l).Perm l := by
  simpa using sortAux_perm l []

theorem sortedVotesDesc_filter (l : VoteDict) (k : Nat) :
    (sortedVotesDesc l).filter (fun q => q.2 == k) = l.filter (fun q => q.2 == k) := by
  simpa using sortAux_filter l [] k (by simp)

theorem sortedVotesDesc_all_zero (l : VoteDict) (h : ∀ p ∈ l, p.2 = 0) :
    sortedVotesDesc l = l := by
  have hmem : ∀ p ∈ sortedVotesDesc l, p.2 = 0 := by
    intro p hp
    exact h p ((sortedVotesDesc_perm l).mem_iff.mp hp)
  have h1 : (sortedVotesDesc l).filter (fun q => q.2 == 0) = sortedVotesDesc l :=
    List.filter_eq_self.mpr (by intro a ha; simpa using hmem a ha)
  have h2 : l.filter (fun q => q.2 == 0) = l :=
    List.filter_eq_self.mpr (by intro a ha; simpa using h a ha)
  rw [← h1, sortedVotesDesc_filter, h2]

theorem castAll_aux (sels : List String) (acc : BallotState × Nat)
    (hopen : acc.1.voting_open = true) :
    (sels.foldl (fun a sel =>
        match cast_vote a.1 sel with
        | .ok s2 => (s2, a.2 + 1)
        | .error _ => a) acc).1.voting_open = true ∧
    (sels.foldl (fun a sel =>
        match cast_vote a.1 sel with
        | .ok s2 => (s2, a.2 + 1)
        | .error _ => a) acc).1.total_votes + acc.2
      = acc.1.total_votes +
        (sels.foldl (fun a sel =>
          match cast_vote a.1 sel with
          | .ok s2 => (s2, a.2 + 1)
          | .error _ => a) acc).2 ∧
    (acc.1.total_votes = sumVotes acc.1.votes →
      (sels.foldl (fun a sel =>
          match cast_vote a.1 sel with
          | .ok s2 => (s2, a.2 + 1)
          | .error _ => a) acc).1.total_votes
        = sumVotes (sels.foldl (fun a sel =>
            match cast_vote a.1 sel with
            | .ok s2 => (s2, a.2 + 1)
            | .error _ => a) acc).1.votes) := by
  induction sels generalizing acc with
  | nil => exact ⟨hopen, rfl, fun h => h⟩
  | cons sel rest ih =>
      rcases hc : cast_vote acc.1 sel with e | s2
      · have := ih acc hopen
        simpa [List.foldl_cons, hc] using this
      · rcases (cast_vote_ok_iff acc.1 sel s2).mp hc with ⟨h1, h2, rfl⟩
        have hstep := ih ({ acc.1 with
            votes := dictSet acc.1.votes sel (dictGet acc.1.votes sel + 1),
            total_votes := acc.1.total_votes + 1 }, acc.2 + 1) (by simpa using hopen)
        rw [List.foldl_cons, hc]
        refine ⟨hstep.1, by have := hstep.2.1; simp at this ⊢; omega, ?_⟩
        intro hsum
        refine hstep.2.2 ?_
        simp [hsum, sumVotes_dictSet_incr]

theorem inv_voting_open_irrel (s : BallotState) (b : Bool) :
    Inv { s with voting_open := b } ↔ Inv s := Iff.rfl

theorem open_voting_ballot (st : SysState) :
    (open_voting st).ballot = if st.ballot.voting_open = false
      then { st.ballot with voting_open := true } else st.ballot := by
  rw [open_voting]
  split_ifs with h <;> rfl

theorem close_voting_ballot (st : SysState) :
    (close_voting st).ballot = if st.ballot.voting_open = true
      then { st.ballot with voting_open := false } else st.ballot := by
  rw [close_voting]
  split_ifs with h <;> rfl

theorem toggle_ballot (st : SysState) :
    (toggle_master_voting st).ballot
      = { st.ballot with voting_open := !st.ballot.voting_open } := by
  rw [toggle_master_voting]
  split_ifs with h <;> rfl


/-- C3: whenever `votingOpen` is false, `castVote(candidate)` fails with the
voting-closed error for every candidate, and every per-candidate counter and
`totalVotes` are left unchanged. -/
theorem castVote_closed_rejects (s : BallotState) (sel : String)
    (h : s.voting_open = false) :
    cast_vote s sel = .error .votingClosed ∧ commit s (cast_vote s sel) = s := by
  rw [cast_vote, if_pos h]
  exact ⟨rfl, rfl⟩

/-- Witness for C3 at a concrete closed state. -/
theorem castVote_closed_rejects_witness :
    cast_vote ⟨false, [("A", 0)], ["A"], 0⟩ "A" = .error .votingClosed ∧
      commit (⟨false, [("A", 0)], ["A"], 0⟩ : BallotState)
        (cast_vote ⟨false, [("A", 0)], ["A"], 0⟩ "A")
      = ⟨false, [("A", 0)], ["A"], 0⟩ :=
  castVote_closed_rejects ⟨false, [("A", 0)], ["A"], 0⟩ "A" rfl

/-- C8: `openVoting` and `closeVoting` are idempotent: already in the target
state they are a complete no-op (no flag change, no log line, no save), and on
an actual transition they flip the flag and append exactly one audit message
and one persisted snapshot. -/
theorem openClose_idempotent (st : SysState) :
    (st.ballot.voting_open = true → open_voting st = st) ∧
    (st.ballot.voting_open = false → close_voting st = st) ∧
    (st.ballot.voting_open = false →
      open_voting st
        = ⟨{ st.ballot with voting_open := true }, st.log ++ ["Voting Opened Manually"],
            st.saves ++ [{ st.ballot with voting_open := true }]⟩) ∧
    (st.ballot.voting_open = true →
      close_voting st
        = ⟨{ st.ballot with voting_open := false }, st.log ++ ["Voting Closed Manually"],
            st.saves ++ [{ st.ballot with voting_open := false }]⟩) := by
  refine ⟨?_, ?_, ?_, ?_⟩
  · intro h
    rw [open_voting, if_neg (by simp [h])]
  · intro h
    rw [close_voting, if_neg (by simp [h])]
  · intro h
    rw [open_voting, if_pos h]
    rfl
  · intro h
    rw [close_voting, if_pos h]
    rfl

/-- Witness for C8: concrete already-open and already-closed states. -/
theorem openClose_idempotent_witness :
    open_voting ⟨⟨true, [], [], 0⟩, [], []⟩ = ⟨⟨true, [], [], 0⟩, [], []⟩ ∧
    close_voting ⟨⟨false, [], [], 0⟩, [], []⟩ = ⟨⟨false, [], [], 0⟩, [], []⟩ :=
  ⟨(openClose_idempotent ⟨⟨true, [], [], 0⟩, [], []⟩).1 rfl,
    (openClose_idempotent ⟨⟨false, [], [], 0⟩, [], []⟩).2.1 rfl⟩

/-- C9: `verify(p)` is true iff the stored hash equals the hash of `p` (the
hash function, `hashlib.sha256(...).hexdigest()` in the source, is abstracted
as the parameter `hash`), and `change(old, new)` fails with the auth error and
leaves the stored hash unchanged whenever `old` does not verify. -/
theorem verify_change_auth (hash : String → String) (stored : Option String)
    (p current new confirm : String) :
    (verify_password hash stored p = true ↔ stored = some (hash p)) ∧
    (verify_password hash stored current = false →
      do_change hash stored current new confirm = .error .authError ∧
      commit stored (do_change hash stored current new confirm) = stored) := by
  constructor
  · cases stored with
    | none => simp [verify_password]
    | some h =>
        simp only [verify_password, beq_iff_eq, Option.some.injEq]
        exact eq_comm
  · intro hv
    rw [do_change, if_pos hv]
    exact ⟨rfl, rfl⟩

/-- Witness for C9 at a concrete hash function and stored hash. -/
theorem verify_change_auth_witness :
    (verify_password (fun s => s ++ "#") (some "h#") "h" = true
      ↔ some "h#" = some ((fun s : String => s ++ "#") "h")) ∧
    (do_change (fun s => s ++ "#") (some "h#") "x" "n" "n" = .error .authError ∧
      commit (some "h#") (do_change (fun s => s ++ "#") (some "h#") "x" "n" "n")
        = some "h#") :=
  ⟨(verify_change_auth (fun s => s ++ "#") (some "h#") "h" "x" "n" "n").1,
    (verify_change_auth (fun s => s ++ "#") (some "h#") "h" "x" "n" "n").2 (by decide)⟩

/-- C10: even when the current password verifies and the new password is
non-empty, the change-password operation fails (with the validation error) and
leaves the stored hash unchanged whenever the new password differs from the
separately entered confirmation. -/
theorem change_mismatch_rejects (hash : String → String) (stored : Option String)
    (current new confirm : String)
    (hv : verify_password hash stored current = true)
    (hne : new ≠ "") (hnc : new ≠ confirm) :
    do_change hash stored current new confirm = .error .validationError ∧
    commit stored (do_change hash stored current new confirm) = stored := by
  rw [do_change, if_neg (by simp [hv]), if_pos (Or.inr hnc)]
  exact ⟨rfl, rfl⟩

/-- Witness for C10: correct current password, non-empty new password, wrong
confirmation. -/
theorem change_mismatch_rejects_witness :
    do_change (fun s => s ++ "#") (some "x#") "x" "a" "b" = .error .validationError ∧
    commit (some "x#") (do_change (fun s => s ++ "#") (some "x#") "x" "a" "b")
      = some "x#" :=
  change_mismatch_rejects (fun s => s ++ "#") (some "x#") "x" "a" "b" (by decide)
    (by decide) (by decide)

/-- C2 as written fails on the code: `cast_vote` performs no membership check,
so with voting open a vote for a name outside the candidate list is accepted
(here "B" with roster ["A"]), not rejected with an invalid-candidate error. -/
theorem castVote_no_membership_check :
    cast_vote ⟨true, [("A", 0)], ["A"], 0⟩ "B"
      = .ok ⟨true, [("A", 0), ("B", 1)], ["A"], 1⟩ ∧
    "B" ∉ (⟨true, [("A", 0)], ["A"], 0⟩ : BallotState).candidates :=
  ⟨rfl, by decide⟩

/-- C2 amended: while voting is open `cast_vote` accepts any non-empty name,
member of the roster or not, incrementing that name's counter (creating it if
absent) and `totalVotes`; only an empty selection is rejected, leaving the
state unchanged. -/
theorem castVote_open_accepts (s : BallotState) (sel : String)
    (hopen : s.voting_open = true) :
    (sel ≠ "" → cast_vote s sel
        = .ok { s with votes := dictSet s.votes sel (dictGet s.votes sel + 1),
                       total_votes := s.total_votes + 1 }) ∧
    (sel = "" → cast_vote s sel = .error .noSelection ∧ commit s (cast_vote s sel) = s) := by
  constructor
  · intro hne
    rw [cast_vote, if_neg (by simp [hopen]), if_neg hne]
  · intro he
    rw [cast_vote, if_neg (by simp [hopen]), if_pos he]
    exact ⟨rfl, rfl⟩

/-- Witness for the amended C2: an out-of-roster vote is accepted, an empty
selection is rejected. -/
theorem castVote_open_accepts_witness :
    cast_vote ⟨true, [("A", 0)], ["A"], 0⟩ "C"
      = .ok ⟨true, [("A", 0), ("C", 1)], ["A"], 1⟩ ∧
    cast_vote ⟨true, [("A", 0)], ["A"], 0⟩ "" = .error .noSelection := by
  have h1 := (castVote_open_accepts ⟨true, [("A", 0)], ["A"], 0⟩ "C" rfl).1 (by decide)
  have h2 := (castVote_open_accepts ⟨true, [("A", 0)], ["A"], 0⟩ "" rfl).2 rfl
  exact ⟨h1.trans rfl, h2.1⟩

/-- C1 as written fails on the code: from a state satisfying both invariants,
a committed `cast_vote` for a name outside the roster leaves a vote-count key
set different from the candidate set. -/
theorem castVote_breaks_keys_invariant :
    Inv ⟨true, [("A", 0)], ["A"], 0⟩ ∧
    cast_vote ⟨true, [("A", 0)], ["A"], 0⟩ "B"
      = .ok ⟨true, [("A", 0), ("B", 1)], ["A"], 1⟩ ∧
    ¬ keysMatch ⟨true, [("A", 0), ("B", 1)], ["A"], 1⟩ := by
  refine ⟨⟨rfl, ?_⟩, rfl, ?_⟩
  · intro c
    simp [keys]
  · intro h
    have hb := (h "B").mp (by simp [keys])
    exact absurd hb (by decide)

/-- C1 amended: both invariants hold after a successful `setCandidates` and
after `resetVotes`; they are preserved by open/close/toggle; an accepted
`castVote` preserves the sum invariant unconditionally and preserves the
key-set invariant provided the voted name is in the roster; and over any
sequence of `castVote` calls made while voting is open, `totalVotes` grows by
exactly the number of accepted calls and stays equal to the sum of the
per-candidate counts. -/
theorem ballot_invariants (st : SysState) (sels : List String) :
    (∀ entries s2, save_candidates st.ballot entries = .ok s2 → Inv s2) ∧
    Inv (reset_votes_logic st.ballot) ∧
    (Inv st.ballot → Inv (open_voting st).ballot ∧ Inv (close_voting st).ballot ∧
      Inv (toggle_master_voting st).ballot) ∧
    (∀ sel s2, cast_vote st.ballot sel = .ok s2 →
      (st.ballot.total_votes = sumVotes st.ballot.votes →
        s2.total_votes = sumVotes s2.votes) ∧
      (Inv st.ballot → sel ∈ st.ballot.candidates → Inv s2)) ∧
    (st.ballot.voting_open = true →
      st.ballot.total_votes = sumVotes st.ballot.votes →
      (castAll st.ballot sels).1.total_votes
        = st.ballot.total_votes + (castAll st.ballot sels).2 ∧
      (castAll st.ballot sels).1.total_votes
        = sumVotes (castAll st.ballot sels).1.votes) := by
  refine ⟨?_, inv_reset _, ?_, ?_, ?_⟩
  · intro entries s2 h
    rcases (save_candidates_ok_iff st.ballot entries s2).mp h with ⟨-, -, rfl⟩
    exact inv_reset _
  · intro hInv
    refine ⟨?_, ?_, ?_⟩
    · rw [open_voting_ballot]
      split_ifs with h
      · exact hInv
      · exact hInv
    · rw [close_voting_ballot]
      split_ifs with h
      · exact hInv
      · exact hInv
    · rw [toggle_ballot]
      exact hInv
  · intro sel s2 h
    rcases (cast_vote_ok_iff st.ballot sel s2).mp h with ⟨-, -, rfl⟩
    constructor
    · intro hsum
      simp only [hsum]
      exact (sumVotes_dictSet_incr st.ballot.votes sel).symm
    · intro hInv hmem
      constructor
      · simp only [hInv.1]
        exact (sumVotes_dictSet_incr st.ballot.votes sel).symm
      · intro c
        show c ∈ keys (dictSet st.ballot.votes sel (dictGet st.ballot.votes sel + 1)) ↔ _
        rw [mem_keys_dictSet]
        rw [hInv.2 c]
        constructor
        · rintro (hc | rfl)
          · exact hc
          · exact hmem
        · intro hc
          exact Or.inl hc
  · intro hopen hsum
    have h := castAll_aux sels (st.ballot, 0) hopen
    exact ⟨by have := h.2.1; simpa using this, h.2.2 hsum⟩

/-- Witness for the amended C1: three casts, one of them an empty selection,
from a concrete open state. -/
theorem ballot_invariants_witness :
    (castAll ⟨true, [("A", 0), ("B", 0)], ["A", "B"], 0⟩ ["A", "", "B"]).1.total_votes
      = (⟨true, [("A", 0), ("B", 0)], ["A", "B"], 0⟩ : BallotState).total_votes
        + (castAll ⟨true, [("A", 0), ("B", 0)], ["A", "B"], 0⟩ ["A", "", "B"]).2 ∧
    (castAll ⟨true, [("A", 0), ("B", 0)], ["A", "B"], 0⟩ ["A", "", "B"]).1.total_votes
      = sumVotes (castAll ⟨true, [("A", 0), ("B", 0)], ["A", "B"], 0⟩ ["A", "", "B"]).1.votes :=
  (ballot_invariants ⟨⟨true, [("A", 0), ("B", 0)], ["A", "B"], 0⟩, [], []⟩
    ["A", "", "B"]).2.2.2.2 rfl rfl

/-- C4 as written fails on the code: an entry that is empty after stripping
(here " ") is silently dropped by the list comprehension, so `setCandidates`
succeeds instead of failing with a validation error. -/
theorem saveCandidates_drops_empty :
    pyStrip " " = "" ∧
    save_candidates ⟨false, [("X", 2)], ["X"], 2⟩ ["A", " "]
      = .ok ⟨false, [("A", 0)], ["A"], 0⟩ :=
  ⟨rfl, rfl⟩

/-- C4 amended: entries are stripped and the ones empty after stripping are
silently dropped; on the remaining names the operation fails with the
limit-exceeded error when more than 32 remain, else with the duplicate-name
error when they are not unique; in each failure case candidates, voteCounts
and totalVotes are left unchanged. -/
theorem saveCandidates_validation (s : BallotState) (entries : List String) :
    (((entries.map pyStrip).filter (fun e => e != "")).length > 32 →
      save_candidates s entries = .error .limitExceeded ∧
      commit s (save_candidates s entries) = s) ∧
    (((entries.map pyStrip).filter (fun e => e != "")).length ≤ 32 →
      ¬ ((entries.map pyStrip).filter (fun e => e != "")).Nodup →
      save_candidates s entries = .error .duplicateNames ∧
      commit s (save_candidates s entries) = s) := by
  constructor
  · intro h
    have he : save_candidates s entries = .error .limitExceeded := by
      rw [save_candidates]
      simp only [if_pos h]
    rw [he]
    exact ⟨rfl, rfl⟩
  · intro hle hnd
    have he : save_candidates s entries = .error .duplicateNames := by
      rw [save_candidates]
      rw [if_neg (by omega)]
      rw [if_pos (fun hh => hnd ((dedup_length_eq_iff _).mp hh))]
    rw [he]
    exact ⟨rfl, rfl⟩

/-- Witness for the amended C4: 33 distinct names trigger the limit error, a
duplicated name triggers the duplicate error; the state is unchanged. -/
theorem saveCandidates_validation_witness :
    (save_candidates ⟨false, [("X", 2)], ["X"], 2⟩
        ["n1", "n2", "n3", "n4", "n5", "n6", "n7", "n8", "n9", "n10", "n11", "n12",
          "n13", "n14", "n15", "n16", "n17", "n18", "n19", "n20", "n21", "n22", "n23",
          "n24", "n25", "n26", "n27", "n28", "n29", "n30", "n31", "n32", "n33"]
      = .error .limitExceeded ∧
      commit (⟨false, [("X", 2)], ["X"], 2⟩ : BallotState)
        (save_candidates ⟨false, [("X", 2)], ["X"], 2⟩
          ["n1", "n2", "n3", "n4", "n5", "n6", "n7", "n8", "n9", "n10", "n11", "n12",
            "n13", "n14", "n15", "n16", "n17", "n18", "n19", "n20", "n21", "n22", "n23",
            "n24", "n25", "n26", "n27", "n28", "n29", "n30", "n31", "n32", "n33"])
        = ⟨false, [("X", 2)], ["X"], 2⟩) ∧
    (save_candidates ⟨false, [("X", 2)], ["X"], 2⟩ ["A", "B", "A"]
      = .error .duplicateNames ∧
      commit (⟨false, [("X", 2)], ["X"], 2⟩ : BallotState)
        (save_candidates ⟨false, [("X", 2)], ["X"], 2⟩ ["A", "B", "A"])
        = ⟨false, [("X", 2)], ["X"], 2⟩) :=
  ⟨(saveCandidates_validation ⟨false, [("X", 2)], ["X"], 2⟩
      ["n1", "n2", "n3", "n4", "n5", "n6", "n7", "n8", "n9", "n10", "n11", "n12",
        "n13", "n14", "n15", "n16", "n17", "n18", "n19", "n20", "n21", "n22", "n23",
        "n24", "n25", "n26", "n27", "n28", "n29", "n30", "n31", "n32", "n33"]).1
      (by decide),
    (saveCandidates_validation ⟨false, [("X", 2)], ["X"], 2⟩ ["A", "B", "A"]).2
      (by decide) (by decide)⟩

theorem compute_results_reset (s : BallotState) (h : s.candidates.Nodup) :
    compute_results (reset_votes_logic s)
      = s.candidates.map (fun c => (c, 0, (0 : ℚ))) := by
  have hz : ∀ p ∈ zeroAll s.candidates [], p.2 = 0 := zeroAll_vals _ [] (by simp)
  rw [compute_results]
  show (sortedVotesDesc (zeroAll s.candidates [])).map _ = _
  rw [sortedVotesDesc_all_zero _ hz, zeroAll_eq_map _ h, List.map_map]
  refine List.map_congr_left ?_
  intro c hc
  show (c, 0, roundTenths (rawPercentage (reset_votes_logic s).total_votes 0)) = (c, 0, 0)
  have h0 : (reset_votes_logic s).total_votes = 0 := rfl
  rw [h0]
  simp [rawPercentage, roundTenths]

/-- C5: on success, `setCandidates` installs the stripped, filtered new roster,
re-zeroes `voteCounts` to exactly one zero entry per new candidate, and resets
`totalVotes` to 0 — forfeiting all previously cast votes even for retained
names; a subsequent `computeResults` reports every new candidate at 0 votes
and 0 percent (total 0). -/
theorem saveCandidates_resets (s : BallotState) (entries : List String) (s2 : BallotState)
    (h : save_candidates s entries = .ok s2) :
    s2.candidates = (entries.map pyStrip).filter (fun e => e != "") ∧
    s2.votes = s2.candidates.map (fun c => (c, 0)) ∧
    s2.total_votes = 0 ∧
    compute_results s2 = s2.candidates.map (fun c => (c, 0, (0 : ℚ))) := by
  rcases (save_candidates_ok_iff s entries s2).mp h with ⟨-, hnd, rfl⟩
  exact ⟨rfl, zeroAll_eq_map _ hnd, rfl, compute_results_reset _ hnd⟩

/-- Witness for C5: a roster change from ["A", "X"] (with prior votes, some
for the retained name "A") to ["A", "B"] zeroes everything. -/
theorem saveCandidates_resets_witness :
    (⟨false, [("A", 0), ("B", 0)], ["A", "B"], 0⟩ : BallotState).candidates
        = (["A", "B"].map pyStrip).filter (fun e => e != "") ∧
    (⟨false, [("A", 0), ("B", 0)], ["A", "B"], 0⟩ : BallotState).votes
        = (⟨false, [("A", 0), ("B", 0)], ["A", "B"], 0⟩ : BallotState).candidates.map
            (fun c => (c, 0)) ∧
    (⟨false, [("A", 0), ("B", 0)], ["A", "B"], 0⟩ : BallotState).total_votes = 0 ∧
    compute_results ⟨false, [("A", 0), ("B", 0)], ["A", "B"], 0⟩
        = (⟨false, [("A", 0), ("B", 0)], ["A", "B"], 0⟩ : BallotState).candidates.map
            (fun c => (c, 0, (0 : ℚ))) :=
  saveCandidates_resets ⟨false, [("A", 5), ("X", 2)], ["A", "X"], 7⟩ ["A", "B"]
    ⟨false, [("A", 0), ("B", 0)], ["A", "B"], 0⟩ rfl

/-- C6 as written fails on the code: when the data file is missing, `load_data`
returns without running the backfill loop, so the kept default state has an
empty vote dict and "Candidate 1" lacks a vote-count entry. -/
theorem loadData_missing_no_backfill :
    load_data initState .missing = initState ∧
    "Candidate 1" ∈ (load_data initState .missing).candidates ∧
    "Candidate 1" ∉ keys (load_data initState .missing).votes :=
  ⟨rfl, by decide, by decide⟩

/-- C6 amended: on a missing file the in-memory defaults are kept unchanged
(10 default candidates, voting closed, zero total, empty vote dict with no
per-candidate entries); on a parse or I/O failure the state falls back to the
default roster with an explicit zero entry per candidate; the zero backfill of
missing vote-count entries runs only on a successful parse, where it covers
every candidate. -/
theorem loadData_defaults :
    load_data initState .missing = initState ∧
    initState.candidates = defaultCandidates ∧
    defaultCandidates.length = 10 ∧
    initState.voting_open = false ∧
    initState.total_votes = 0 ∧
    initState.votes = [] ∧
    (load_data initState .unreadable = reset_votes_logic initState ∧
      (∀ c : String, dictGet (load_data initState .unreadable).votes c = 0) ∧
      (∀ c : String, c ∈ keys (load_data initState .unreadable).votes
        ↔ c ∈ defaultCandidates) ∧
      (load_data initState .unreadable).total_votes = 0 ∧
      (load_data initState .unreadable).voting_open = false) ∧
    (∀ c v t o cand, cand ∈ (load_data initState (.parsed c v t o)).candidates →
      cand ∈ keys (load_data initState (.parsed c v t o)).votes) := by
  refine ⟨rfl, rfl, by decide, rfl, rfl, rfl, ⟨rfl, ?_, ?_, rfl, rfl⟩, ?_⟩
  · intro c
    exact dictGet_eq_zero _ c (zeroAll_vals _ [] (by simp))
  · intro c
    show c ∈ keys (zeroAll defaultCandidates []) ↔ _
    rw [mem_keys_zeroAll]
    simp [keys]
  · intro c v t o cand hc
    show cand ∈ keys (backfill (c.getD initState.candidates) (v.getD []))
    rw [mem_keys_backfill]
    exact Or.inr hc

/-- Witness for the amended C6: a parsed file with roster ["X"] and an empty
votes object gets a zero entry backfilled for "X". -/
theorem loadData_defaults_witness :
    "X" ∈ keys (load_data initState (.parsed (some ["X"]) (some []) none none)).votes :=
  loadData_defaults.2.2.2.2.2.2.2 (some ["X"]) (some []) none none "X" (by decide)

/-- C7: `computeResults` returns the vote entries sorted by count descending,
ties broken by preserving relative input order (for each count value the
filtered subsequence is unchanged), as a permutation of the vote entries, and
each row carries `votes / totalVotes * 100` rounded to one decimal, or 0 when
`totalVotes` is 0. -/
theorem computeResults_sorted_stable (s : BallotState) :
    ((compute_results s).map (fun t => (t.1, t.2.1))).Pairwise (fun a b => b.2 ≤ a.2) ∧
    (∀ k : Nat, ((compute_results s).map (fun t => (t.1, t.2.1))).filter (fun q => q.2 == k)
        = s.votes.filter (fun q => q.2 == k)) ∧
    ((compute_results s).map (fun t => (t.1, t.2.1))).Perm s.votes ∧
    compute_results s = (sortedVotesDesc s.votes).map
      (fun p => (p.1, p.2, roundTenths
        (if 0 < s.total_votes then (p.2 : ℚ) / (s.total_votes : ℚ) * 100 else 0))) := by
  have hcomp : ((fun t : String × Nat × ℚ => (t.1, t.2.1)) ∘
      (fun p : String × Nat => (p.1, p.2, roundTenths (rawPercentage s.total_votes p.2))))
      = fun p => p := by
    funext p
    rfl
  have hproj : (compute_results s).map (fun t => (t.1, t.2.1)) = sortedVotesDesc s.votes := by
    rw [compute_results, List.map_map, hcomp]
    exact List.map_id _
  refine ⟨?_, ?_, ?_, ?_⟩
  · rw [hproj]
    exact sortedVotesDesc_pairwise _
  · intro k
    rw [hproj]
    exact sortedVotesDesc_filter _ k
  · rw [hproj]
    exact sortedVotesDesc_perm _
  · rw [compute_results]
    simp only [rawPercentage]

/-- Witness for C7 at a concrete tied state: the count-1 rows keep their input
order. -/
theorem computeResults_sorted_stable_witness :
    ((compute_results ⟨false, [("A", 1), ("B", 1)], ["A", "B"], 2⟩).map
        (fun t => (t.1, t.2.1))).filter (fun q => q.2 == 1)
      = [("A", 1), ("B", 1)] := by
  have h := (computeResults_sorted_stable ⟨false, [("A", 1), ("B", 1)], ["A", "B"], 2⟩).2.1 1
  rw [h]
  decide

end Voting